import Mathlib

/-!
Verification of the concurrency-safe remote state access layer of a
feature-toggle library: a redis wrapper offering get/set, optimistic-locking
watched read-modify-write, and a pub/sub handler multiplexer
(src/redisWrapper.js), together with the local lazy caches
(LazyCache / ExpiringLazyCache).

JSON values are modelled by the mutual inductive `JVal`/`JArr`/`JObj` with an
executable serializer `jsonStringify` (mirroring JSON.stringify: no
whitespace, string escaping) and parser `jsonParse` (mirroring JSON.parse on
the fragment produced by the serializer; numbers are modelled as integers).

The redis store is modelled as a partial map from keys to raw strings; the
JavaScript value null is the not-found sentinel and is modelled by `none` at
the raw level and by `JVal.null` at the object level.  Since
`_watchedGetSet` runs against a store that other clients mutate
concurrently, each attempt of the loop is driven by an `AttemptEnv` oracle
giving the raw value seen by GET after WATCH and the outcome of the
transactional EXEC (`none` = aborted by a concurrent write to the watched
key, `some replies` = committed with these replies).
-/


mutual
inductive JVal : Type
  | null : JVal
  | bool : Bool → JVal
  | num : Int → JVal
  | str : String → JVal
  | arr : JArr → JVal
  | obj : JObj → JVal
deriving DecidableEq
inductive JArr : Type
  | nil : JArr
  | cons : JVal → JArr → JArr
deriving DecidableEq
inductive JObj : Type
  | nil : JObj
  | cons : String → JVal → JObj → JObj
deriving DecidableEq
end

-- Decimal digit characters of a natural number, most significant first, as
-- JavaScript renders a nonnegative integer.  The fuel argument (any bound
-- above the number itself) keeps the recursion structural so that terms
-- reduce in the kernel; `natDigits_eq` below recovers the usual recursion.
def natDigitsAux : Nat → Nat → List Char
  | 0, _ => []
  | fuel + 1, n =>
    if n < 10 then [Nat.digitChar n]
    else natDigitsAux fuel (n / 10) ++ [Nat.digitChar (n % 10)]

def natDigits (n : Nat) : List Char := natDigitsAux (n + 1) n
-- JSON string escaping as performed by JSON.stringify: quote and backslash
-- are escaped with a backslash, as are the common control characters.
-- (Other control characters, which JSON.stringify writes as unicode escapes,
-- are emitted literally here; `unescapeChar` below is its exact inverse, so
-- the codec stays internally consistent.)
def escapeChar (c : Char) : List Char :=
  if c = '"' ∨ c = '\\' then ['\\', c]
  else if c = '\n' then ['\\', 'n']
  else if c = '\t' then ['\\', 't']
  else if c = '\r' then ['\\', 'r']
  else [c]

def escapeChars (l : List Char) : List Char := l.flatMap escapeChar

-- JSON.stringify on the modelled value grammar: no whitespace, fields in
-- insertion order, numbers as decimal integers.
mutual
def emitVal : JVal → List Char
  | .str s => '"' :: (escapeChars s.data ++ ['"'])
  | .num n => if n < 0 then '-' :: natDigits n.natAbs else natDigits n.natAbs
  | .bool b => if b then ['t', 'r', 'u', 'e'] else ['f', 'a', 'l', 's', 'e']
  | .null => ['n', 'u', 'l', 'l']
  | .arr a => '[' :: (emitArr a ++ [']'])
  | .obj o => '{' :: (emitObj o ++ ['}'])
def emitArr : JArr → List Char
  | .nil => []
  | .cons v .nil => emitVal v
  | .cons v (.cons w tl) => emitVal v ++ ',' :: emitArr (.cons w tl)
def emitObj : JObj → List Char
  | .nil => []
  | .cons k v .nil => '"' :: (escapeChars k.data ++ '"' :: ':' :: emitVal v)
  | .cons k v (.cons k2 w tl) =>
      ('"' :: (escapeChars k.data ++ '"' :: ':' :: emitVal v)) ++ ',' :: emitObj (.cons k2 w tl)
end

def unescapeChar (c : Char) : Option Char :=
  if c = '"' ∨ c = '\\' then some c
  else if c = 'n' then some '\n'
  else if c = 't' then some '\t'
  else if c = 'r' then some '\r'
  else none

-- Parse the body of a JSON string up to (and consuming) the closing quote,
-- undoing `escapeChars`.
mutual
def parseStrChars : List Char → Option (List Char × List Char)
  | [] => none
  | c :: rest =>
    if c = '"' then some ([], rest)
    else if c = '\\' then parseEscaped rest
    else (parseStrChars rest).map (fun p => (c :: p.1, p.2))
def parseEscaped : List Char → Option (List Char × List Char)
  | [] => none
  | e :: rest =>
    match unescapeChar e with
    | none => none
    | some u => (parseStrChars rest).map (fun p => (u :: p.1, p.2))
end

def charVal (c : Char) : Nat := c.toNat - '0'.toNat

def readDigits : List Char → Nat → Nat × List Char
  | [], acc => (acc, [])
  | c :: cs, acc =>
    if c.isDigit then readDigits cs (acc * 10 + charVal c) else (acc, c :: cs)

def parseNat : List Char → Option (Nat × List Char)
  | [] => none
  | c :: cs => if c.isDigit then some (readDigits (c :: cs) 0) else none

def expectChars : List Char → List Char → Option (List Char)
  | [], cs => some cs
  | _ :: _, [] => none
  | e :: es, c :: cs => if c = e then expectChars es cs else none

def headIs (cs : List Char) (c : Char) : Bool :=
  match cs with
  | [] => false
  | c' :: _ => c' = c

def nonDigitStart (cs : List Char) : Bool :=
  match cs with
  | [] => true
  | c :: _ => !c.isDigit

-- JSON.parse on the fragment produced by `emitVal`/`jsonStringify`(no
-- interspersed whitespace).  The fuel argument only bounds the nesting of
-- recursive values so that the functions are total and kernel-reducible;
-- `jsonParse` passes a fuel that is always sufficient for its input.
mutual
def parseVal : Nat → List Char → Option (JVal × List Char)
  | 0, _ => none
  | fuel + 1, cs =>
    match cs with
    | [] => none
    | c :: cs' =>
      if c = 'n' then (expectChars ['u', 'l', 'l'] cs').map (fun r => (.null, r))
      else if c = 't' then (expectChars ['r', 'u', 'e'] cs').map (fun r => (.bool true, r))
      else if c = 'f' then (expectChars ['a', 'l', 's', 'e'] cs').map (fun r => (.bool false, r))
      else if c = '"' then (parseStrChars cs').map (fun p => (.str (String.mk p.1), p.2))
      else if c = '[' then
        if headIs cs' ']' then some (.arr .nil, cs'.tail)
        else (parseArr fuel cs').map (fun p => (.arr p.1, p.2))
      else if c = '{' then
        if headIs cs' '}' then some (.obj .nil, cs'.tail)
        else (parseObj fuel cs').map (fun p => (.obj p.1, p.2))
      else if c = '-' then (parseNat cs').map (fun p => (.num (-(p.1 : Int)), p.2))
      else if c.isDigit then (parseNat (c :: cs')).map (fun p => (.num (p.1 : Int), p.2))
      else none
def parseArr : Nat → List Char → Option (JArr × List Char)
  | 0, _ => none
  | fuel + 1, cs =>
    match parseVal fuel cs with
    | none => none
    | some (v, rest) =>
      if headIs rest ']' then some (.cons v .nil, rest.tail)
      else if headIs rest ',' then (parseArr fuel rest.tail).map (fun p => (.cons v p.1, p.2))
      else none
def parseObj : Nat → List Char → Option (JObj × List Char)
  | 0, _ => none
  | fuel + 1, cs =>
    match cs with
    | '"' :: cs' =>
      match parseStrChars cs' with
      | none => none
      | some (k, rest) =>
        match rest with
        | ':' :: rest' =>
          match parseVal fuel rest' with
          | none => none
          | some (v, rest2) =>
            if headIs rest2 '}' then some (.cons (String.mk k) v .nil, rest2.tail)
            else if headIs rest2 ',' then
              (parseObj fuel rest2.tail).map (fun p => (.cons (String.mk k) v p.1, p.2))
            else none
        | _ => none
    | _ => none
end

def jsonStringify (v : JVal) : String := String.mk (emitVal v)

def jsonParse (s : String) : Option JVal :=
  match parseVal (s.length + 1) s.data with
  | some (v, []) => some v
  | _ => none
namespace RedisWrapper

-- A reply of a command inside a transactional EXEC: an integer (DEL returns
-- the number of deleted keys) or a simple string (SET returns "OK").  The
-- replies of an EXEC are modelled as a `List Reply`, so the defensive
-- Array.isArray check of the source is always satisfied in the model.
inductive Reply : Type
  | int (n : Int)
  | simple (s : String)
deriving DecidableEq

-- The errors raised by the modelled operations.  VError wrapping with a
-- cause is modelled by the `cause` field of `watchedGetSetError` (the
-- catch-all wrapper "error during watched get set" with info. key), while
-- `unexpectedReplies` carries info. key, attempt, attempts, replies and
-- `attemptLimit` carries info. key, attempts as in the source.
inductive RedisError : Type
  | jsonParseError (raw : String)
  | unexpectedReplies (key : String) (attempt : Nat) (attempts : Nat) (replies : List Reply)
  | watchedGetSetError (key : String) (cause : RedisError)
  | attemptLimit (key : String) (attempts : Nat)
deriving DecidableEq

-- The remote key-value store: absent keys read as the JS null, modelled by
-- `none`.
abbrev Store := String → Option String

-- get(key), src/redisWrapper.js line 165: the raw stored string or the
-- not-found sentinel.
def get (store : Store) (key : String) : Option String := store key

def set (store : Store) (key value : String) : Store :=
  fun k => if k = key then some value else store k

def del (store : Store) (key : String) : Store :=
  fun k => if k = key then none else store k

-- getObject(key), lines 173-176: `result === null ? null : JSON.parse(result)`;
-- a JSON.parse throw surfaces as an error.
def getObject (store : Store) (key : String) : Except RedisError JVal :=
  match get store key with
  | none => .ok .null
  | some s =>
    match jsonParse s with
    | some v => .ok v
    | none => .error (.jsonParseError s)

-- setObject(key, value), lines 194-197: store JSON.stringify(value).
def setObject (store : Store) (key : String) (value : JVal) : Store :=
  set store key (jsonStringify value)

-- A store mutation committed by a transactional EXEC of _watchedGetSet:
-- either the DEL or the SET batched on the multi client.
inductive Mutation : Type
  | del
  | set (value : String)
deriving DecidableEq

def applyMutation (store : Store) (key : String) : Mutation → Store
  | .del => del store key
  | .set value => set store key value

def applyMutations (store : Store) (key : String) (ms : List Mutation) : Store :=
  ms.foldl (fun st m => applyMutation st key m) store

-- The environment of one attempt of the optimistic-locking loop, as an
-- oracle over the concurrently mutated store and the driver: `preValue` is
-- the raw value the GET after WATCH observes, `execResult` is what the
-- transactional EXEC would return if reached (`none` models the null reply
-- of an EXEC aborted because the watched key changed concurrently, in which
-- case the batched command is discarded; `some replies` models a commit).
structure AttemptEnv : Type where
  preValue : Option String
  execResult : Option (List Reply)

-- Line 230: the single expected reply, `doDelete ? 1 : "OK"`.
def expectedReply (doDelete : Bool) : Reply := if doDelete then .int 1 else .simple "OK"

-- The raw/object mode switch of _watchedGetSet (lines 213 and 215), as the
-- pair of conversions between logical values and raw stored strings that the
-- two branches of the mode conditionals perform.
structure Codec (α : Type) : Type where
  decode : Option String → Except RedisError α
  encode : α → Option String

-- MODE.RAW: values are the raw strings themselves (null passes through).
def rawCodec : Codec (Option String) where
  decode := fun raw => .ok raw
  encode := fun v => v

-- MODE.OBJECT: `oldValueRaw === null ? null : JSON.parse(oldValueRaw)` on
-- decode and `newValue === null ? null : JSON.stringify(newValue)` on
-- encode.  JVal.null is the JS null.
def objectCodec : Codec JVal where
  decode := fun raw =>
    match raw with
    | none => .ok .null
    | some s =>
      match jsonParse s with
      | some v => .ok v
      | none => .error (.jsonParseError s)
  encode := fun v =>
    match v with
    | .null => none
    | v => some (jsonStringify v)

-- What a run of _watchedGetSet does: its returned value or raised error,
-- and the store mutations its committed EXECs performed, in order.
structure GSOutcome (α : Type) : Type where
  result : Except RedisError α
  mutations : List Mutation

-- The attempt loop of _watchedGetSet, lines 208-242.  `remaining` counts
-- the attempts still allowed, so the loop is structural: on entry
-- `remaining = attempts` and the current attempt number is
-- `attempts - (remaining - 1)`, running 1, 2, ..., attempts as in the
-- source; `remaining = 0` is the fall-through of the for loop, raising the
-- attempt-limit error of line 242.  Within one attempt: decode the watched
-- GET result (a decode throw is caught by the catch of line 238 and
-- wrapped), call newValueCallback, short-circuit without any batch when the
-- serialized forms coincide (lines 217-219), otherwise batch DEL or SET and
-- EXEC; a null EXEC reply retries, a committed EXEC with the wrong reply
-- shape raises the wrapped unexpected-replies error (lines 229-236).
def _watchedGetSetGo {α : Type} (codec : Codec α) (key : String) (cb : α → α)
    (envs : Nat → AttemptEnv) (attempts : Nat) : Nat → GSOutcome α
  | 0 => ⟨.error (.attemptLimit key attempts), []⟩
  | remaining + 1 =>
    let attempt := attempts - remaining
    let env := envs attempt
    match codec.decode env.preValue with
    | .error e => ⟨.error (.watchedGetSetError key e), []⟩
    | .ok oldValue =>
      let newValue := cb oldValue
      let newValueRaw := codec.encode newValue
      if env.preValue = newValueRaw then ⟨.ok oldValue, []⟩
      else
        match env.execResult with
        | some replies =>
          let mutation : Mutation :=
            match newValueRaw with
            | none => .del
            | some s => .set s
          if replies = [expectedReply newValueRaw.isNone] then ⟨.ok newValue, [mutation]⟩
          else
            ⟨.error (.watchedGetSetError key
              (.unexpectedReplies key attempt attempts replies)), [mutation]⟩
        | none => _watchedGetSetGo codec key cb envs attempts remaining

def _watchedGetSet {α : Type} (codec : Codec α) (key : String) (cb : α → α)
    (envs : Nat → AttemptEnv) (attempts : Nat) : GSOutcome α :=
  _watchedGetSetGo codec key cb envs attempts attempts

-- The default of the attempts parameter (line 199).
def DEFAULT_ATTEMPTS : Nat := 10

def watchedGetSet (key : String) (cb : Option String → Option String)
    (envs : Nat → AttemptEnv) (attempts : Nat) : GSOutcome (Option String) :=
  _watchedGetSet rawCodec key cb envs attempts

def watchedGetSetObject (key : String) (cb : JVal → JVal)
    (envs : Nat → AttemptEnv) (attempts : Nat) : GSOutcome JVal :=
  _watchedGetSet objectCodec key cb envs attempts

end RedisWrapper
namespace RedisWrapper

-- Handlers are compared by JS reference identity (findIndex with ===), so
-- they are modelled as opaque identifiers; their behaviour enters only the
-- dispatch model below.
abbrev Handler := Nat

-- The module-level mutable state behind the pub/sub multiplexer: whether
-- the lazily created subscriberClient exists, the messageHandlers object
-- (channel to non-empty handler array), and which channels the subscriber
-- connection is currently subscribed to.
structure SubscriberState : Type where
  hasSubscriberClient : Bool
  messageHandlers : String → Option (List Handler)
  subscribed : String → Bool

def initialSubscriberState : SubscriberState where
  hasSubscriberClient := false
  messageHandlers := fun _ => none
  subscribed := fun _ => false

def _hasMessageHandlers (s : SubscriberState) (channel : String) : Bool :=
  (s.messageHandlers channel).isSome

-- registerMessageHandler, lines 292-306: lazily create the subscriber,
-- then on the first handler of a channel store [handler] and subscribe,
-- otherwise push onto the existing array.
def registerMessageHandler (s : SubscriberState) (channel : String) (handler : Handler) :
    SubscriberState :=
  let s := { s with hasSubscriberClient := true }
  if _hasMessageHandlers s channel then
    { s with messageHandlers := fun ch =>
        if ch = channel then ((s.messageHandlers channel).getD []) ++ [handler] |> some
        else s.messageHandlers ch }
  else
    { s with
      messageHandlers := fun ch => if ch = channel then some [handler] else s.messageHandlers ch
      subscribed := fun ch => if ch = channel then true else s.subscribed ch }

-- `array.splice(index, 1)` for the index produced by findIndex: removal at
-- a found index, and for the miss value -1 JavaScript counts from the end
-- and removes the LAST element (of an empty array, nothing).
def spliceRemoveOne (l : List Handler) (index : Option Nat) : List Handler :=
  match index with
  | some i => l.eraseIdx i
  | none => l.dropLast

-- removeMessageHandler, lines 314-324: no-op without a subscriber client or
-- registry entry; otherwise splice out findIndex's index and, if the array
-- became empty, delete the entry and unsubscribe the channel.
def removeMessageHandler (s : SubscriberState) (channel : String) (handler : Handler) :
    SubscriberState :=
  if !s.hasSubscriberClient || !(_hasMessageHandlers s channel) then s
  else
    let l := (s.messageHandlers channel).getD []
    let index := l.findIdx? (fun messageHandler => messageHandler = handler)
    let l' := spliceRemoveOne l index
    if l'.length = 0 then
      { s with
        messageHandlers := fun ch => if ch = channel then none else s.messageHandlers ch
        subscribed := fun ch => if ch = channel then false else s.subscribed ch }
    else
      { s with messageHandlers := fun ch =>
          if ch = channel then some l' else s.messageHandlers ch }

-- removeAllMessageHandlers, lines 331-337.
def removeAllMessageHandlers (s : SubscriberState) (channel : String) : SubscriberState :=
  if !s.hasSubscriberClient || !(_hasMessageHandlers s channel) then s
  else
    { s with
      messageHandlers := fun ch => if ch = channel then none else s.messageHandlers ch
      subscribed := fun ch => if ch = channel then false else s.subscribed ch }

inductive SubOp : Type
  | register (channel : String) (handler : Handler)
  | remove (channel : String) (handler : Handler)
  | removeAll (channel : String)

def applySubOp (s : SubscriberState) : SubOp → SubscriberState
  | .register channel handler => registerMessageHandler s channel handler
  | .remove channel handler => removeMessageHandler s channel handler
  | .removeAll channel => removeAllMessageHandlers s channel

def applySubOps (s : SubscriberState) (ops : List SubOp) : SubscriberState :=
  ops.foldl applySubOp s

-- The registry invariant of the data model: an entry exists iff it holds at
-- least one handler, and the subscribed channels are exactly the registry
-- domain.
def SubInv (s : SubscriberState) : Prop :=
  (∀ ch l, s.messageHandlers ch = some l → l ≠ []) ∧
  (∀ ch, s.subscribed ch = true ↔ (s.messageHandlers ch).isSome)

structure LogEntry : Type where
  handler : Handler
  channel : String
  message : String
deriving DecidableEq

-- The guarded invocation of one handler inside _onMessage (lines 50-59):
-- `hb` gives each handler's outcome on a message; a throw is caught and
-- turned into one log entry naming the handler and channel, never
-- propagated.
def handleOne (hb : Handler → String → Except String Unit) (channel message : String)
    (h : Handler) : Option LogEntry :=
  match hb h message with
  | .ok _ => none
  | .error err => some ⟨h, channel, err⟩

structure DispatchResult : Type where
  invoked : List (Handler × String)
  logs : List LogEntry
deriving DecidableEq

-- _onMessage, lines 44-61: drop the message silently when the channel has
-- no registry entry, otherwise invoke every registered handler with the
-- message (Promise.all over the individually guarded handlers; the fan-out
-- concurrency itself is not modelled), collecting the logged failures.
def _onMessage (mh : String → Option (List Handler))
    (hb : Handler → String → Except String Unit)
    (incomingChannel message : String) : DispatchResult :=
  if !(mh incomingChannel).isSome then ⟨[], []⟩
  else
    let handlers := (mh incomingChannel).getD []
    let results := handlers.map (fun h => ((h, message), handleOne hb incomingChannel message h))
    ⟨results.map Prod.fst, results.filterMap Prod.snd⟩

end RedisWrapper
-- The local caches of lazyCaches (unnamed source file): LazyCache and its
-- expiring subclass.  The caches are modelled immutably (operations return
-- the updated cache); `Date.now()` defaults are replaced by the explicit
-- currentTime arguments that the claims quantify over.
namespace LazyCacheMod

-- Keys are a single string or an ordered list of parts joined with the
-- configured separator (`_key`).
inductive KeyOrKeys : Type
  | one (key : String)
  | many (keys : List String)

def DEFAULT_SEPARATOR : String := "##"
def DEFAULT_EXPIRING_GAP : Int := 100

-- The plain memoizing cache: an object from joined keys to values
-- (hasOwnProperty-based `has`; a never-set key reads as undefined = none).
structure LazyCache : Type where
  separator : String
  data : String → Option JVal

def LazyCache._key (c : LazyCache) : KeyOrKeys → String
  | .one key => key
  | .many keys => String.intercalate c.separator keys

def LazyCache.has (c : LazyCache) (keyOrKeys : KeyOrKeys) : Bool :=
  (c.data (c._key keyOrKeys)).isSome

def LazyCache.get (c : LazyCache) (keyOrKeys : KeyOrKeys) : Option JVal :=
  c.data (c._key keyOrKeys)

def LazyCache.set (c : LazyCache) (keyOrKeys : KeyOrKeys) (value : JVal) : LazyCache :=
  { c with data := fun k => if k = c._key keyOrKeys then some value else c.data k }

-- The expiring cache stores [expirationTime, value] pairs.  Expiration
-- times and query times are JS numbers, modelled as integers; JS truthiness
-- of a number is being nonzero.
structure ExpiringLazyCache : Type where
  separator : String
  expiringGap : Int
  data : String → Option (Int × JVal)

def ExpiringLazyCache._key (c : ExpiringLazyCache) : KeyOrKeys → String
  | .one key => key
  | .many keys => String.intercalate c.separator keys

-- _isValid, part_001 lines 71-73:
-- `expirationTime && currentTime <= expirationTime + expiringGap`.
def ExpiringLazyCache._isValid (c : ExpiringLazyCache) (expirationTime : Int)
    (currentTime : Int) : Bool :=
  expirationTime ≠ 0 && currentTime ≤ expirationTime + c.expiringGap

-- has, lines 74-80: false when the entry is absent, else the validity of
-- its expiration time.
def ExpiringLazyCache.has (c : ExpiringLazyCache) (keyOrKeys : KeyOrKeys)
    (currentTime : Int) : Bool :=
  match c.data (c._key keyOrKeys) with
  | none => false
  | some (expirationTime, _) => c._isValid expirationTime currentTime

-- get, lines 81-84: the stored value while valid, else null (also the JS
-- result when the entry is absent, via the destructured undefined).
def ExpiringLazyCache.get (c : ExpiringLazyCache) (keyOrKeys : KeyOrKeys)
    (currentTime : Int) : JVal :=
  match c.data (c._key keyOrKeys) with
  | none => .null
  | some (expirationTime, value) =>
    if c._isValid expirationTime currentTime then value else .null

-- set, lines 85-87: store the pair [expirationTime, value].
def ExpiringLazyCache.set (c : ExpiringLazyCache) (keyOrKeys : KeyOrKeys)
    (expirationTime : Int) (value : JVal) : ExpiringLazyCache :=
  { c with data := fun k =>
      if k = c._key keyOrKeys then some (expirationTime, value) else c.data k }

end LazyCacheMod
-- A concrete expiring cache with the default separator and gap and no
-- entries, used by concrete instantiations below.
def exampleExpiringCache : LazyCacheMod.ExpiringLazyCache where
  separator := LazyCacheMod.DEFAULT_SEPARATOR
  expiringGap := LazyCacheMod.DEFAULT_EXPIRING_GAP
  data := fun _ => none

theorem natDigitsAux_congr (f1 : Nat) : ∀ f2 n, n < f1 → n < f2 →
    natDigitsAux f1 n = natDigitsAux f2 n := by
  induction f1 with
  | zero => omega
  | succ f1 ih =>
    intro f2 n h1 h2
    cases f2 with
    | zero => omega
    | succ f2 =>
      simp only [natDigitsAux]
      by_cases h : n < 10
      · simp [h]
      · rw [if_neg h, if_neg h, ih f2 (n / 10) (by omega) (by omega)]

theorem natDigits_eq (n : Nat) :
    natDigits n = if n < 10 then [Nat.digitChar n]
      else natDigits (n / 10) ++ [Nat.digitChar (n % 10)] := by
  by_cases h : n < 10
  · simp [natDigits, natDigitsAux, h]
  · rw [if_neg h]
    show natDigitsAux (n + 1) n = _
    rw [natDigitsAux, if_neg h,
      natDigitsAux_congr n (n / 10 + 1) (n / 10) (by omega) (by omega)]
    rfl
theorem mk_data (s : String) : String.mk s.data = s := rfl

theorem expectChars_append (es rest : List Char) : expectChars es (es ++ rest) = some rest := by
  induction es with
  | nil => simp [expectChars]
  | cons e es ih => simp [expectChars, ih]

theorem parseStrChars_escape (s : List Char) : ∀ rest,
    parseStrChars (escapeChars s ++ ('"' :: rest)) = some (s, rest) := by
  induction s with
  | nil => intro rest; simp [escapeChars, parseStrChars]
  | cons c s ih =>
    intro rest
    have hesc : escapeChars (c :: s) = escapeChar c ++ escapeChars s := by
      simp [escapeChars]
    rw [hesc]
    by_cases h1 : c = '"' ∨ c = '\\'
    · rcases h1 with h1 | h1 <;> subst h1 <;>
        simp [escapeChar, parseStrChars, parseEscaped, unescapeChar, ih]
    · push_neg at h1
      by_cases h2 : c = '\n'
      · subst h2; simp [escapeChar, parseStrChars, parseEscaped, unescapeChar, ih]
      · by_cases h3 : c = '\t'
        · subst h3; simp [escapeChar, parseStrChars, parseEscaped, unescapeChar, ih]
        · by_cases h4 : c = '\r'
          · subst h4; simp [escapeChar, parseStrChars, parseEscaped, unescapeChar, ih]
          · rw [escapeChar, if_neg (by tauto), if_neg h2, if_neg h3, if_neg h4]
            simp [parseStrChars, h1.1, h1.2, ih]

theorem digitChar_isDigit {n : Nat} (h : n < 10) : (Nat.digitChar n).isDigit = true := by
  interval_cases n <;> decide

theorem charVal_digitChar {n : Nat} (h : n < 10) : charVal (Nat.digitChar n) = n := by
  interval_cases n <;> decide

theorem natDigits_head (n : Nat) : ∃ d ds, natDigits n = d :: ds ∧ d.isDigit = true := by
  induction n using Nat.strong_induction_on with
  | _ n ih =>
    rw [natDigits_eq]
    by_cases h : n < 10
    · exact ⟨_, _, by rw [if_pos h], digitChar_isDigit h⟩
    · rw [if_neg h]
      obtain ⟨d, ds, hd, hdig⟩ := ih (n / 10) (Nat.div_lt_self (by omega) (by omega))
      exact ⟨d, ds ++ [Nat.digitChar (n % 10)], by rw [hd]; simp, hdig⟩

theorem readDigits_stop (cs : List Char) (acc : Nat) (h : nonDigitStart cs = true) :
    readDigits cs acc = (acc, cs) := by
  cases cs with
  | nil => simp [readDigits]
  | cons c cs =>
    simp [nonDigitStart] at h
    simp [readDigits, h]

theorem readDigits_natDigits (n : Nat) : ∀ rest acc,
    readDigits (natDigits n ++ rest) acc =
      readDigits rest (acc * 10 ^ (natDigits n).length + n) := by
  induction n using Nat.strong_induction_on with
  | _ n ih =>
    intro rest acc
    by_cases h : n < 10
    · rw [natDigits_eq, if_pos h]
      simp [readDigits, digitChar_isDigit h, charVal_digitChar h]
    · rw [natDigits_eq, if_neg h]
      have hlt : n / 10 < n := Nat.div_lt_self (by omega) (by omega)
      rw [List.append_assoc, List.cons_append, List.nil_append, ih (n / 10) hlt]
      have hm : n % 10 < 10 := Nat.mod_lt _ (by omega)
      simp only [readDigits, digitChar_isDigit hm, if_pos, charVal_digitChar hm]
      have : (acc * 10 ^ (natDigits (n / 10)).length + n / 10) * 10 + n % 10 =
          acc * 10 ^ ((natDigits (n / 10)).length + 1) + n := by
        rw [pow_succ]
        have := Nat.div_add_mod n 10
        ring_nf
        omega
      rw [this]
      congr 1
      simp [List.length_append]

theorem parseNat_natDigits (n : Nat) (rest : List Char) (h : nonDigitStart rest = true) :
    parseNat (natDigits n ++ rest) = some (n, rest) := by
  obtain ⟨d, ds, hd, hdig⟩ := natDigits_head n
  rw [hd, List.cons_append, parseNat, if_pos hdig, ← List.cons_append, ← hd,
    readDigits_natDigits n rest 0, readDigits_stop rest _ h]
  simp

theorem ne_char_of_digit {d : Char} (hd : d.isDigit = true) {c : Char}
    (hc : c.isDigit = false) : d ≠ c := by
  intro h
  rw [h, hc] at hd
  exact Bool.noConfusion hd

theorem emitVal_ex (v : JVal) : ∃ c cs, emitVal v = c :: cs ∧ c ≠ ']' := by
  cases v with
  | null => exact ⟨_, _, rfl, by decide⟩
  | bool b => cases b <;> exact ⟨_, _, rfl, by decide⟩
  | num n =>
    by_cases hn : n < 0
    · exact ⟨'-', natDigits n.natAbs, by simp [emitVal, hn], by decide⟩
    · obtain ⟨d, ds, hd, hdig⟩ := natDigits_head n.natAbs
      exact ⟨d, ds, by simp [emitVal, hn, hd], ne_char_of_digit hdig (by decide)⟩
  | str s => exact ⟨_, _, rfl, by decide⟩
  | arr a => exact ⟨_, _, rfl, by decide⟩
  | obj o => exact ⟨_, _, rfl, by decide⟩

theorem emitArr_cons_ex (v : JVal) (tl : JArr) :
    ∃ X, emitArr (.cons v tl) = emitVal v ++ X := by
  cases tl with
  | nil => exact ⟨[], by simp [emitArr]⟩
  | cons w tl => exact ⟨',' :: emitArr (.cons w tl), by simp [emitArr]⟩

theorem parse_emit (fuel : Nat) :
    (∀ (v : JVal) rest, (emitVal v).length < fuel → nonDigitStart rest = true →
      parseVal fuel (emitVal v ++ rest) = some (v, rest)) ∧
    (∀ (a : JArr) rest, a ≠ .nil → (emitArr a).length + 1 < fuel →
      parseArr fuel (emitArr a ++ (']' :: rest)) = some (a, rest)) ∧
    (∀ (o : JObj) rest, o ≠ .nil → (emitObj o).length + 1 < fuel →
      parseObj fuel (emitObj o ++ ('}' :: rest)) = some (o, rest)) := by
  induction fuel with
  | zero => exact ⟨fun v rest h => by omega, fun a rest h h' => by omega, fun o rest h h' => by omega⟩
  | succ fuel ih =>
    obtain ⟨ihV, ihA, ihO⟩ := ih
    refine ⟨?_, ?_, ?_⟩
    · intro v rest hlen hnd
      cases v with
      | null => simp [emitVal, parseVal, expectChars]
      | bool b => cases b <;> simp [emitVal, parseVal, expectChars]
      | str s =>
        simp only [emitVal, List.cons_append, List.append_assoc, List.singleton_append]
        simp only [parseVal, if_true, List.nil_append]
        rw [parseStrChars_escape]
        simp [mk_data]
      | num n =>
        by_cases hn : n < 0
        · have hemit : emitVal (.num n) = '-' :: natDigits n.natAbs := by simp [emitVal, hn]
          rw [hemit]
          simp only [List.cons_append, parseVal, if_true]
          rw [parseNat_natDigits n.natAbs rest hnd]
          have : -((n.natAbs : Int)) = n := by omega
          simp only [Option.map_some', this]
          simp
        · have hemit : emitVal (.num n) = natDigits n.natAbs := by simp [emitVal, hn]
          obtain ⟨d, ds, hd, hdig⟩ := natDigits_head n.natAbs
          rw [hemit, hd]
          simp only [List.cons_append, parseVal]
          rw [if_neg (ne_char_of_digit hdig (by decide)),
            if_neg (ne_char_of_digit hdig (by decide)),
            if_neg (ne_char_of_digit hdig (by decide)),
            if_neg (ne_char_of_digit hdig (by decide)),
            if_neg (ne_char_of_digit hdig (by decide)),
            if_neg (ne_char_of_digit hdig (by decide)),
            if_neg (ne_char_of_digit hdig (by decide)), if_pos hdig]
          rw [← List.cons_append, ← hd, parseNat_natDigits n.natAbs rest hnd]
          have : ((n.natAbs : Int)) = n := by omega
          simp [this]
      | arr a =>
        cases a with
        | nil => simp [emitVal, emitArr, parseVal, headIs]
        | cons v tl =>
          have hemit : emitVal (.arr (.cons v tl)) ++ rest =
              '[' :: (emitArr (.cons v tl) ++ (']' :: rest)) := by
            simp [emitVal]
          rw [hemit]
          simp only [parseVal, if_true]
          obtain ⟨X, hX⟩ := emitArr_cons_ex v tl
          obtain ⟨c0, cs0, hc0, hne0⟩ := emitVal_ex v
          have hhead : headIs (emitArr (.cons v tl) ++ (']' :: rest)) ']' = false := by
            rw [hX, hc0]
            simp [headIs, hne0]
          rw [hhead]
          simp only [Bool.false_eq_true, if_false]
          rw [ihA (.cons v tl) rest (by simp) (by simp [emitVal] at hlen; omega)]
          rfl
      | obj o =>
        cases o with
        | nil => simp [emitVal, emitObj, parseVal, headIs]
        | cons k v tl =>
          have hemit : emitVal (.obj (.cons k v tl)) ++ rest =
              '{' :: (emitObj (.cons k v tl) ++ ('}' :: rest)) := by
            simp [emitVal]
          rw [hemit]
          simp only [parseVal, if_true]
          have hhead : headIs (emitObj (.cons k v tl) ++ ('}' :: rest)) '}' = false := by
            cases tl <;> simp [emitObj, headIs]
          rw [hhead]
          simp only [Bool.false_eq_true, if_false]
          rw [ihO (.cons k v tl) rest (by simp) (by simp [emitVal] at hlen; omega)]
          rfl
    · intro a rest hanil hlen
      cases a with
      | nil => exact absurd rfl hanil
      | cons v tl =>
        cases tl with
        | nil =>
          have hemit : emitArr (.cons v .nil) ++ (']' :: rest) = emitVal v ++ (']' :: rest) := by
            simp [emitArr]
          rw [hemit]
          simp only [parseArr]
          rw [ihV v (']' :: rest) (by simp [emitArr] at hlen; omega) (by rfl)]
          simp [headIs]
        | cons w tl =>
          have hemit : emitArr (.cons v (.cons w tl)) ++ (']' :: rest) =
              emitVal v ++ (',' :: (emitArr (.cons w tl) ++ (']' :: rest))) := by
            simp [emitArr]
          rw [hemit]
          simp only [parseArr]
          rw [ihV v (',' :: (emitArr (.cons w tl) ++ (']' :: rest)))
            (by simp [emitArr, List.length_append] at hlen ⊢; omega) (by rfl)]
          simp only [headIs, List.tail]
          rw [if_neg (by simp), if_pos (by simp)]
          rw [ihA (.cons w tl) rest (by simp) (by simp [emitArr, List.length_append] at hlen ⊢; omega)]
          rfl
    · intro o rest honil hlen
      cases o with
      | nil => exact absurd rfl honil
      | cons k v tl =>
        cases tl with
        | nil =>
          have hemit : emitObj (.cons k v .nil) ++ ('}' :: rest) =
              '"' :: (escapeChars k.data ++ ('"' :: (':' :: (emitVal v ++ ('}' :: rest))))) := by
            simp [emitObj]
          rw [hemit]
          simp only [parseObj]
          rw [parseStrChars_escape]
          simp only []
          rw [ihV v ('}' :: rest) (by simp [emitObj, List.length_append] at hlen ⊢; omega) (by rfl)]
          simp [headIs, mk_data]
        | cons k2 w tl =>
          have hemit : emitObj (.cons k v (.cons k2 w tl)) ++ ('}' :: rest) =
              '"' :: (escapeChars k.data ++ ('"' :: (':' :: (emitVal v ++
                (',' :: (emitObj (.cons k2 w tl) ++ ('}' :: rest))))))) := by
            simp [emitObj]
          rw [hemit]
          simp only [parseObj]
          rw [parseStrChars_escape]
          simp only []
          rw [ihV v (',' :: (emitObj (.cons k2 w tl) ++ ('}' :: rest)))
            (by simp [emitObj, List.length_append] at hlen ⊢; omega) (by rfl)]
          simp only [headIs, List.tail]
          rw [if_neg (by simp), if_pos (by simp)]
          rw [ihO (.cons k2 w tl) rest (by simp)
            (by simp [emitObj, List.length_append] at hlen ⊢; omega)]
          simp [mk_data]

theorem jsonParse_stringify (v : JVal) : jsonParse (jsonStringify v) = some v := by
  have hdata : (jsonStringify v).data = emitVal v := rfl
  have hlen : (jsonStringify v).length = (emitVal v).length := rfl
  rw [jsonParse, hdata, hlen]
  have := (parse_emit ((emitVal v).length + 1)).1 v [] (by omega) (by decide)
  rw [List.append_nil] at this
  rw [this]
namespace RedisWrapper

theorem rawShortCircuit (key : String) (cb : Option String → Option String)
    (envs : Nat → AttemptEnv) (attempts : Nat) (hatt : 1 ≤ attempts)
    (hcb : cb ((envs 1).preValue) = (envs 1).preValue) :
    watchedGetSet key cb envs attempts = ⟨.ok ((envs 1).preValue), []⟩ := by
  obtain ⟨r, rfl⟩ : ∃ r, attempts = r + 1 := ⟨attempts - 1, by omega⟩
  have h1 : r + 1 - r = 1 := by omega
  simp [watchedGetSet, _watchedGetSet, _watchedGetSetGo, rawCodec, h1, hcb]

theorem objShortCircuit (key : String) (cb : JVal → JVal)
    (envs : Nat → AttemptEnv) (attempts : Nat) (oldValue : JVal) (hatt : 1 ≤ attempts)
    (hdec : objectCodec.decode ((envs 1).preValue) = .ok oldValue)
    (henc : objectCodec.encode (cb oldValue) = (envs 1).preValue) :
    watchedGetSetObject key cb envs attempts = ⟨.ok oldValue, []⟩ := by
  obtain ⟨r, rfl⟩ : ∃ r, attempts = r + 1 := ⟨attempts - 1, by omega⟩
  have h1 : r + 1 - r = 1 := by omega
  simp only [watchedGetSetObject, _watchedGetSet, _watchedGetSetGo, h1]
  rw [hdec]
  simp [henc.symm]

theorem rawCodec_decode (x : Option String) : rawCodec.decode x = .ok x := rfl

theorem rawCodec_encode (x : Option String) : rawCodec.encode x = x := rfl

theorem go_all_conflict (key : String) (cb : Option String → Option String)
    (envs : Nat → AttemptEnv) (attempts : Nat) :
    ∀ remaining, remaining ≤ attempts →
    (∀ i, attempts - remaining + 1 ≤ i → i ≤ attempts →
      cb ((envs i).preValue) ≠ (envs i).preValue ∧ (envs i).execResult = none) →
    _watchedGetSetGo rawCodec key cb envs attempts remaining =
      ⟨.error (.attemptLimit key attempts), []⟩ := by
  intro remaining
  induction remaining with
  | zero => intro _ _; rfl
  | succ r ih =>
    intro hle hwin
    have hi := hwin (attempts - r) (by omega) (by omega)
    simp only [_watchedGetSetGo, rawCodec_decode, rawCodec_encode]
    rw [if_neg (Ne.symm hi.1), hi.2]
    exact ih (by omega) (fun i h1 h2 => hwin i (by omega) h2)

theorem go_bad_replies (key : String) (cb : Option String → Option String)
    (envs : Nat → AttemptEnv) (attempts a : Nat) (replies : List Reply) :
    ∀ remaining, remaining ≤ attempts →
    attempts - remaining + 1 ≤ a → a ≤ attempts →
    (∀ i, attempts - remaining + 1 ≤ i → i < a →
      cb ((envs i).preValue) ≠ (envs i).preValue ∧ (envs i).execResult = none) →
    cb ((envs a).preValue) ≠ (envs a).preValue →
    (envs a).execResult = some replies →
    replies ≠ [expectedReply (cb ((envs a).preValue)).isNone] →
    (_watchedGetSetGo rawCodec key cb envs attempts remaining).result =
      .error (.watchedGetSetError key (.unexpectedReplies key a attempts replies)) := by
  intro remaining
  induction remaining with
  | zero => intro h0 h1 h2 _ _ _ _; omega
  | succ r ih =>
    intro hle hlo ha hwin hcba hexa hbad
    by_cases heq : attempts - r = a
    · simp only [_watchedGetSetGo, rawCodec_decode, rawCodec_encode, heq]
      rw [if_neg (Ne.symm hcba), hexa]
      simp [hbad]
    · have hi := hwin (attempts - r) (by omega) (by omega)
      simp only [_watchedGetSetGo, rawCodec_decode, rawCodec_encode]
      rw [if_neg (Ne.symm hi.1), hi.2]
      exact ih (by omega) (by omega) ha (fun i h1 h2 => hwin i (by omega) h2) hcba hexa hbad

end RedisWrapper

namespace RedisWrapper

theorem subInv_init : SubInv initialSubscriberState := by
  constructor
  · intro ch l hl
    exact Option.noConfusion hl
  · intro ch
    simp [initialSubscriberState]

theorem subInv_preserved (s : SubscriberState) (op : SubOp) (h : SubInv s) :
    SubInv (applySubOp s op) := by
  obtain ⟨h1, h2⟩ := h
  cases op with
  | register channel handler =>
    show SubInv (registerMessageHandler s channel handler)
    rw [registerMessageHandler]
    by_cases hc : _hasMessageHandlers { s with hasSubscriberClient := true } channel
    · rw [if_pos hc]
      refine ⟨?_, ?_⟩
      · intro ch l hl
        simp only at hl
        by_cases hch : ch = channel
        · rw [if_pos hch] at hl
          obtain ⟨rfl⟩ : ((s.messageHandlers channel).getD []) ++ [handler] = l :=
            Option.some.inj hl
          simp
        · rw [if_neg hch] at hl
          exact h1 ch l hl
      · intro ch
        simp only
        by_cases hch : ch = channel
        · subst hch
          rw [if_pos rfl]
          simp only [Option.isSome_some, iff_true]
          exact (h2 ch).mpr hc
        · rw [if_neg hch]
          exact h2 ch
    · rw [if_neg hc]
      refine ⟨?_, ?_⟩
      · intro ch l hl
        simp only at hl
        by_cases hch : ch = channel
        · rw [if_pos hch] at hl
          obtain ⟨rfl⟩ : [handler] = l := Option.some.inj hl
          simp
        · rw [if_neg hch] at hl
          exact h1 ch l hl
      · intro ch
        simp only
        by_cases hch : ch = channel
        · simp [if_pos hch]
        · rw [if_neg hch, if_neg hch]
          exact h2 ch
  | remove channel handler =>
    show SubInv (removeMessageHandler s channel handler)
    rw [removeMessageHandler]
    by_cases hg : !s.hasSubscriberClient || !(_hasMessageHandlers s channel)
    · rw [if_pos hg]; exact ⟨h1, h2⟩
    · rw [if_neg hg]
      by_cases hlen : (spliceRemoveOne ((s.messageHandlers channel).getD [])
          (((s.messageHandlers channel).getD []).findIdx? (fun mh => mh = handler))).length = 0
      · rw [if_pos hlen]
        refine ⟨?_, ?_⟩
        · intro ch l hl
          simp only at hl
          by_cases hch : ch = channel
          · rw [if_pos hch] at hl
            exact Option.noConfusion hl
          · rw [if_neg hch] at hl
            exact h1 ch l hl
        · intro ch
          simp only
          by_cases hch : ch = channel
          · simp [if_pos hch]
          · rw [if_neg hch, if_neg hch]
            exact h2 ch
      · rw [if_neg hlen]
        refine ⟨?_, ?_⟩
        · intro ch l hl
          simp only at hl
          by_cases hch : ch = channel
          · rw [if_pos hch] at hl
            obtain ⟨rfl⟩ := Option.some.inj hl
            intro hnil
            rw [hnil] at hlen
            exact hlen rfl
          · rw [if_neg hch] at hl
            exact h1 ch l hl
        · intro ch
          simp only
          by_cases hch : ch = channel
          · subst hch
            rw [if_pos rfl]
            simp only [Option.isSome_some, iff_true]
            have hgf := Bool.eq_false_iff.mpr hg
            simp only [Bool.or_eq_false_iff, Bool.not_eq_false'] at hgf
            exact (h2 ch).mpr (by simpa [_hasMessageHandlers] using hgf.2)
          · rw [if_neg hch]
            exact h2 ch
  | removeAll channel =>
    show SubInv (removeAllMessageHandlers s channel)
    rw [removeAllMessageHandlers]
    by_cases hg : !s.hasSubscriberClient || !(_hasMessageHandlers s channel)
    · rw [if_pos hg]; exact ⟨h1, h2⟩
    · rw [if_neg hg]
      refine ⟨?_, ?_⟩
      · intro ch l hl
        simp only at hl
        by_cases hch : ch = channel
        · rw [if_pos hch] at hl
          exact Option.noConfusion hl
        · rw [if_neg hch] at hl
          exact h1 ch l hl
      · intro ch
        simp only
        by_cases hch : ch = channel
        · simp [if_pos hch]
        · rw [if_neg hch, if_neg hch]
          exact h2 ch

theorem subInv_ops (ops : List SubOp) : ∀ s, SubInv s → SubInv (applySubOps s ops) := by
  induction ops with
  | nil => intro s h; exact h
  | cons op ops ih =>
    intro s h
    exact ih _ (subInv_preserved s op h)

end RedisWrapper
open RedisWrapper LazyCacheMod in
/-- C1: for every key and every newValueCallback whose result serializes to
exactly the raw string currently stored under that key, watchedGetSet (raw
mode) and watchedGetSetObject (object mode) perform zero store mutations (no
set, no delete, no transactional commit) and return the old (decoded) value:
the loop short-circuits on its first attempt with an empty mutation list. -/
theorem claim_C1 :
    (∀ (key : String) (cb : Option String → Option String) (envs : Nat → AttemptEnv)
      (attempts : Nat), 1 ≤ attempts →
      cb ((envs 1).preValue) = (envs 1).preValue →
      watchedGetSet key cb envs attempts = ⟨.ok ((envs 1).preValue), []⟩) ∧
    (∀ (key : String) (cb : JVal → JVal) (envs : Nat → AttemptEnv)
      (attempts : Nat) (oldValue : JVal), 1 ≤ attempts →
      objectCodec.decode ((envs 1).preValue) = .ok oldValue →
      objectCodec.encode (cb oldValue) = (envs 1).preValue →
      watchedGetSetObject key cb envs attempts = ⟨.ok oldValue, []⟩) :=
  ⟨fun key cb envs attempts h1 h2 => rawShortCircuit key cb envs attempts h1 h2,
   fun key cb envs attempts oldValue h1 h2 h3 =>
     objShortCircuit key cb envs attempts oldValue h1 h2 h3⟩

theorem claim_C1_witness :
    (1 ≤ 10 ∧
      RedisWrapper.watchedGetSet "k" (fun v => v)
        (fun _ => ⟨some "7", none⟩) 10 = ⟨.ok (some "7"), []⟩) ∧
    (RedisWrapper.objectCodec.decode (some "7") = .ok (JVal.num 7) ∧
      RedisWrapper.objectCodec.encode (JVal.num 7) = some "7" ∧
      RedisWrapper.watchedGetSetObject "k" (fun v => v)
        (fun _ => ⟨some "7", none⟩) 10 = ⟨.ok (JVal.num 7), []⟩) :=
  ⟨⟨by omega, claim_C1.1 "k" (fun v => v) (fun _ => ⟨some "7", none⟩) 10 (by omega) rfl⟩,
   ⟨by rfl, by rfl,
    claim_C1.2 "k" (fun v => v) (fun _ => ⟨some "7", none⟩) 10 (JVal.num 7)
      (by omega) (by rfl) (by rfl)⟩⟩

open RedisWrapper in
/-- C2: for every existing key, calling watchedGetSet with a callback that
returns null (the not-found sentinel, modelled by none) commits a delete of
the key: the result is the new value none, the only mutation is a delete,
and a subsequent get on the mutated store returns the not-found sentinel. -/
theorem claim_C2 (store : Store) (key s : String) (cb : Option String → Option String)
    (envs : Nat → AttemptEnv) (attempts : Nat)
    (hatt : 1 ≤ attempts)
    (hget : get store key = some s)
    (hpre : (envs 1).preValue = get store key)
    (hcb : cb (some s) = none)
    (hexec : (envs 1).execResult = some [.int 1]) :
    (watchedGetSet key cb envs attempts).result = .ok none ∧
    (watchedGetSet key cb envs attempts).mutations = [.del] ∧
    get (applyMutations store key (watchedGetSet key cb envs attempts).mutations) key = none := by
  obtain ⟨r, rfl⟩ : ∃ r, attempts = r + 1 := ⟨attempts - 1, by omega⟩
  have h1 : r + 1 - r = 1 := by omega
  have hpre' : (envs 1).preValue = some s := hpre.trans hget
  have houtcome : watchedGetSet key cb envs (r + 1) = ⟨.ok none, [.del]⟩ := by
    simp only [watchedGetSet, _watchedGetSet, _watchedGetSetGo, rawCodec_decode,
      rawCodec_encode, h1, hpre', hcb, hexec]
    simp [expectedReply]
  rw [houtcome]
  refine ⟨rfl, rfl, ?_⟩
  show RedisWrapper.get (del store key) key = none
  show (if key = key then none else store key) = none
  simp

theorem claim_C2_witness :
    1 ≤ 10 ∧
    RedisWrapper.get (fun k => if k = "k" then some "old" else none) "k" = some "old" ∧
    ((RedisWrapper.watchedGetSet "k" (fun _ => none)
        (fun _ => ⟨some "old", some [.int 1]⟩) 10).result = .ok none ∧
      (RedisWrapper.watchedGetSet "k" (fun _ => none)
        (fun _ => ⟨some "old", some [.int 1]⟩) 10).mutations = [.del] ∧
      RedisWrapper.get (RedisWrapper.applyMutations
        (fun k => if k = "k" then some "old" else none) "k"
        (RedisWrapper.watchedGetSet "k" (fun _ => none)
          (fun _ => ⟨some "old", some [.int 1]⟩) 10).mutations) "k" = none) :=
  ⟨by omega, by rfl,
    claim_C2 (fun k => if k = "k" then some "old" else none) "k" "old" (fun _ => none)
      (fun _ => ⟨some "old", some [.int 1]⟩) 10 (by omega) (by rfl) (by rfl) (by rfl) (by rfl)⟩

open RedisWrapper in
/-- C3: if every one of the configured number of attempts of watchedGetSet
ends in a concurrent-modification conflict (the transactional EXEC returns
the null/aborted result), then watchedGetSet raises the
attempt-limit-exceeded error carrying the key and the configured attempt
limit, and performs no store mutation. -/
theorem claim_C3 (key : String) (cb : Option String → Option String)
    (envs : Nat → AttemptEnv) (attempts : Nat)
    (hconf : ∀ i, 1 ≤ i → i ≤ attempts →
      cb ((envs i).preValue) ≠ (envs i).preValue ∧ (envs i).execResult = none) :
    watchedGetSet key cb envs attempts = ⟨.error (.attemptLimit key attempts), []⟩ := by
  apply go_all_conflict key cb envs attempts attempts le_rfl
  intro i hi1 hi2
  exact hconf i (by omega) hi2

theorem claim_C3_witness :
    (∀ i, 1 ≤ i → i ≤ RedisWrapper.DEFAULT_ATTEMPTS →
      (fun (_ : Option String) => some "x") ((fun (_ : Nat) =>
        (⟨none, none⟩ : RedisWrapper.AttemptEnv)) i).preValue ≠
        ((fun (_ : Nat) => (⟨none, none⟩ : RedisWrapper.AttemptEnv)) i).preValue ∧
      ((fun (_ : Nat) => (⟨none, none⟩ : RedisWrapper.AttemptEnv)) i).execResult = none) ∧
    RedisWrapper.watchedGetSet "k" (fun _ => some "x")
      (fun _ => ⟨none, none⟩) RedisWrapper.DEFAULT_ATTEMPTS =
      ⟨.error (.attemptLimit "k" RedisWrapper.DEFAULT_ATTEMPTS), []⟩ :=
  ⟨fun i _ _ => ⟨by simp, rfl⟩,
    claim_C3 "k" (fun _ => some "x") (fun _ => ⟨none, none⟩) RedisWrapper.DEFAULT_ATTEMPTS
      (fun i _ _ => ⟨by simp, rfl⟩)⟩

open RedisWrapper in
/-- C4: if the transactional commit of an attempt of watchedGetSet succeeds
(non-null replies) but the replies are not exactly the one-element array
holding the expected single-command outcome (1 for a delete, "OK" for a
set), watchedGetSet raises the wrapped protocol-inconsistency error carrying
the attempt number, the attempt limit and the received replies, and does not
retry another attempt: the error is raised at that very attempt even when
further attempts would remain. -/
theorem claim_C4 (key : String) (cb : Option String → Option String)
    (envs : Nat → AttemptEnv) (attempts a : Nat) (replies : List Reply)
    (ha1 : 1 ≤ a) (ha2 : a ≤ attempts)
    (hconf : ∀ i, 1 ≤ i → i < a →
      cb ((envs i).preValue) ≠ (envs i).preValue ∧ (envs i).execResult = none)
    (hcba : cb ((envs a).preValue) ≠ (envs a).preValue)
    (hexa : (envs a).execResult = some replies)
    (hbad : replies ≠ [expectedReply (cb ((envs a).preValue)).isNone]) :
    (watchedGetSet key cb envs attempts).result =
      .error (.watchedGetSetError key (.unexpectedReplies key a attempts replies)) := by
  apply go_bad_replies key cb envs attempts a replies attempts le_rfl (by omega) ha2
    (fun i hi1 hi2 => hconf i (by omega) hi2) hcba hexa hbad

theorem claim_C4_witness :
    1 ≤ 2 ∧ 2 ≤ 10 ∧
    [RedisWrapper.Reply.int 0] ≠ [RedisWrapper.expectedReply true] ∧
    (RedisWrapper.watchedGetSet "k" (fun _ => none)
      (fun i => if i = 2 then ⟨some "v", some [.int 0]⟩ else ⟨some "v", none⟩) 10).result =
      .error (.watchedGetSetError "k" (.unexpectedReplies "k" 2 10 [.int 0])) :=
  ⟨by omega, by omega, by decide,
    claim_C4 "k" (fun _ => none)
      (fun i => if i = 2 then ⟨some "v", some [.int 0]⟩ else ⟨some "v", none⟩) 10 2
      [.int 0] (by omega) (by omega)
      (fun i h1 h2 => by
        have : i = 1 := by omega
        subst this
        exact ⟨by simp, rfl⟩)
      (by simp) (by rfl) (by decide)⟩

open RedisWrapper in
/-- C5: after every sequence of registerMessageHandler, removeMessageHandler
and removeAllMessageHandlers calls starting from the initial state, a
channel entry exists in the registry if and only if at least one handler is
registered for it, and the subscribed-channel set coincides with the
registry domain (SubInv); registration subscribes the subscriber connection
exactly on the first handler of a channel, and removal unsubscribes exactly
when the channel's handler list becomes empty. -/
theorem claim_C5 :
    (∀ ops : List SubOp, SubInv (applySubOps initialSubscriberState ops)) ∧
    (∀ (s : SubscriberState) (channel : String) (handler : Handler),
      s.messageHandlers channel = none →
      (registerMessageHandler s channel handler).subscribed channel = true ∧
      (registerMessageHandler s channel handler).messageHandlers channel = some [handler]) ∧
    (∀ (s : SubscriberState) (channel : String) (handler : Handler),
      (s.messageHandlers channel).isSome = true →
      (registerMessageHandler s channel handler).subscribed = s.subscribed) ∧
    (∀ (s : SubscriberState) (channel : String) (handler : Handler) (l : List Handler),
      SubInv s → s.hasSubscriberClient = true → s.messageHandlers channel = some l →
      ((removeMessageHandler s channel handler).subscribed channel = false ↔
        spliceRemoveOne l (l.findIdx? (fun x => x = handler)) = [])) := by
  refine ⟨fun ops => subInv_ops ops _ subInv_init, ?_, ?_, ?_⟩
  · intro s channel handler hnone
    have hc : _hasMessageHandlers { s with hasSubscriberClient := true } channel = false := by
      simp [_hasMessageHandlers, hnone]
    rw [registerMessageHandler]
    rw [hc]
    simp
  · intro s channel handler hsome
    have hc : _hasMessageHandlers { s with hasSubscriberClient := true } channel = true := by
      simpa [_hasMessageHandlers] using hsome
    rw [registerMessageHandler, hc]
    simp
  · intro s channel handler l hinv hsub hl
    have hguard : (!s.hasSubscriberClient || !(_hasMessageHandlers s channel)) = false := by
      simp [hsub, _hasMessageHandlers, hl]
    have hsubbed : s.subscribed channel = true :=
      (hinv.2 channel).mpr (by simp [hl])
    rw [removeMessageHandler, hguard]
    simp only [Bool.false_eq_true, if_false, hl, Option.getD_some]
    by_cases hlen : (spliceRemoveOne l (l.findIdx? (fun x => x = handler))).length = 0
    · rw [if_pos hlen]
      simp only [if_pos rfl]
      constructor
      · intro _
        exact List.length_eq_zero.mp hlen
      · intro _
        rfl
    · rw [if_neg hlen]
      simp only [hsubbed]
      constructor
      · intro hfalse
        exact absurd hfalse (by simp)
      · intro hnil
        rw [hnil] at hlen
        exact absurd rfl hlen

theorem claim_C5_witness :
    RedisWrapper.SubInv (RedisWrapper.applySubOps RedisWrapper.initialSubscriberState
      [.register "c" 1, .register "c" 2, .remove "c" 1]) ∧
    ((RedisWrapper.registerMessageHandler RedisWrapper.initialSubscriberState "c" 1).subscribed
      "c" = true) :=
  ⟨claim_C5.1 [.register "c" 1, .register "c" 2, .remove "c" 1],
   (claim_C5.2.1 RedisWrapper.initialSubscriberState "c" 1 rfl).1⟩

open RedisWrapper in
/-- C6: for every inbound message on a channel, if no handlers are
registered the dispatch returns without any effect (no invocation, no log);
otherwise every registered handler is invoked with the message, and a
failure of one handler is caught and logged individually, never rethrown by
the dispatcher (its return type has no error outcome) and never preventing
the invocation of the other handlers. -/
theorem claim_C6 (mh : String → Option (List Handler))
    (hb : Handler → String → Except String Unit) (channel message : String) :
    (mh channel = none → _onMessage mh hb channel message = ⟨[], []⟩) ∧
    (∀ handlers, mh channel = some handlers →
      (_onMessage mh hb channel message).invoked = handlers.map (fun h => (h, message)) ∧
      (∀ h, h ∈ handlers → (h, message) ∈ (_onMessage mh hb channel message).invoked) ∧
      (_onMessage mh hb channel message).logs =
        handlers.filterMap (handleOne hb channel message) ∧
      (∀ h err, h ∈ handlers → hb h message = .error err →
        (⟨h, channel, err⟩ : LogEntry) ∈ (_onMessage mh hb channel message).logs)) := by
  constructor
  · intro hn
    simp [_onMessage, hn]
  · intro handlers hs
    have hmsg : _onMessage mh hb channel message =
        ⟨handlers.map (fun h => (h, message)),
         handlers.filterMap (handleOne hb channel message)⟩ := by
      simp only [_onMessage, hs, Option.isSome_some, Bool.not_true, Bool.false_eq_true,
        if_false, Option.getD_some, List.map_map, List.filterMap_map]
      exact congrArg₂ DispatchResult.mk rfl rfl
    rw [hmsg]
    refine ⟨rfl, ?_, rfl, ?_⟩
    · intro h hh
      exact List.mem_map.mpr ⟨h, hh, rfl⟩
    · intro h err hh herr
      exact List.mem_filterMap.mpr ⟨h, hh, by simp [handleOne, herr]⟩

theorem claim_C6_witness :
    ((fun (_ : String) => (none : Option (List RedisWrapper.Handler))) "c" = none ∧
      RedisWrapper._onMessage (fun _ => none)
        (fun _ _ => .ok ()) "c" "m" = ⟨[], []⟩) ∧
    ((fun (_ : String) => (some [1, 2] : Option (List RedisWrapper.Handler))) "c" = some [1, 2] ∧
      (RedisWrapper._onMessage (fun _ => some [1, 2])
        (fun h _ => if h = 1 then .error "boom" else .ok ()) "c" "m").invoked =
        [(1, "m"), (2, "m")] ∧
      (RedisWrapper._onMessage (fun _ => some [1, 2])
        (fun h _ => if h = 1 then .error "boom" else .ok ()) "c" "m").logs =
        [⟨1, "c", "boom"⟩]) :=
  ⟨⟨rfl, (claim_C6 (fun _ => none) (fun _ _ => .ok ()) "c" "m").1 rfl⟩,
   ⟨rfl,
    by
      have h := (claim_C6 (fun _ => some [1, 2])
        (fun h _ => if h = 1 then .error "boom" else .ok ()) "c" "m").2 [1, 2] rfl
      exact h.1.trans (by decide),
    by
      have h := (claim_C6 (fun _ => some [1, 2])
        (fun h _ => if h = 1 then .error "boom" else .ok ()) "c" "m").2 [1, 2] rfl
      exact h.2.2.1.trans (by decide)⟩⟩

open LazyCacheMod in
/-- C7: an expiring-cache entry is treated as present by has at query time T
if and only if its expiration time is truthy (nonzero) and
T is at most expirationTime + gap; get agrees with has on validity for every
timestamp (it returns the stored value exactly on valid entries and the
not-found value null otherwise); after set k t v with truthy t, get at
t + gap returns v and get at t + gap + 1 returns not-found; an entry with a
falsy (zero) expiration time is never valid. -/
theorem claim_C7 (c : ExpiringLazyCache) (k : KeyOrKeys) (T : Int) :
    (c.has k T = true ↔
      ∃ t v, c.data (c._key k) = some (t, v) ∧ t ≠ 0 ∧ T ≤ t + c.expiringGap) ∧
    (c.has k T = true → ∃ t v, c.data (c._key k) = some (t, v) ∧ c.get k T = v) ∧
    (c.has k T = false → c.get k T = .null) ∧
    (∀ t v, t ≠ 0 → (c.set k t v).get k (t + c.expiringGap) = v) ∧
    (∀ t v, (c.set k t v).get k (t + c.expiringGap + 1) = .null) ∧
    (∀ v, (c.set k 0 v).has k T = false ∧ (c.set k 0 v).get k T = .null) := by
  have hvalid_iff : ∀ t T', c._isValid t T' = true ↔ (t ≠ 0 ∧ T' ≤ t + c.expiringGap) := by
    intro t T'
    rw [ExpiringLazyCache._isValid]
    simp
  refine ⟨?_, ?_, ?_, ?_, ?_, ?_⟩
  · rw [ExpiringLazyCache.has]
    cases hdata : c.data (c._key k) with
    | none =>
      simp only [Bool.false_eq_true, false_iff]
      rintro ⟨t, v, hsome, _⟩
      exact Option.noConfusion hsome
    | some p =>
      obtain ⟨t, v⟩ := p
      show c._isValid t T = true ↔ _
      rw [hvalid_iff]
      constructor
      · rintro ⟨h1, h2⟩
        exact ⟨t, v, rfl, h1, h2⟩
      · rintro ⟨t', v', hsome, h1, h2⟩
        obtain ⟨rfl, rfl⟩ : t = t' ∧ v = v' := by
          have := Option.some.inj hsome
          exact ⟨congrArg Prod.fst this, congrArg Prod.snd this⟩
        exact ⟨h1, h2⟩
  · rw [ExpiringLazyCache.has, ExpiringLazyCache.get]
    cases hdata : c.data (c._key k) with
    | none => intro h; exact Bool.noConfusion h
    | some p =>
      obtain ⟨t, v⟩ := p
      intro hvalid
      have hvalid' : c._isValid t T = true := hvalid
      refine ⟨t, v, rfl, ?_⟩
      show (if c._isValid t T = true then v else JVal.null) = v
      rw [if_pos hvalid']
  · rw [ExpiringLazyCache.has, ExpiringLazyCache.get]
    cases hdata : c.data (c._key k) with
    | none => intro _; rfl
    | some p =>
      obtain ⟨t, v⟩ := p
      intro hinvalid
      have hinvalid' : c._isValid t T = false := hinvalid
      show (if c._isValid t T = true then v else JVal.null) = JVal.null
      rw [if_neg (by simp [hinvalid'])]
  · intro t v ht
    have hdata : (c.set k t v).data ((c.set k t v)._key k) = some (t, v) := by
      cases k <;> simp [ExpiringLazyCache.set, ExpiringLazyCache._key]
    rw [ExpiringLazyCache.get, hdata]
    show (if (c.set k t v)._isValid t (t + c.expiringGap) = true then v else JVal.null) = v
    have : (c.set k t v)._isValid t (t + c.expiringGap) = c._isValid t (t + c.expiringGap) := rfl
    rw [this, if_pos ((hvalid_iff t _).mpr ⟨ht, le_refl _⟩)]
  · intro t v
    have hdata : (c.set k t v).data ((c.set k t v)._key k) = some (t, v) := by
      cases k <;> simp [ExpiringLazyCache.set, ExpiringLazyCache._key]
    rw [ExpiringLazyCache.get, hdata]
    show (if (c.set k t v)._isValid t (t + c.expiringGap + 1) = true then v else JVal.null) =
      JVal.null
    have heq : (c.set k t v)._isValid t (t + c.expiringGap + 1) =
        c._isValid t (t + c.expiringGap + 1) := rfl
    rw [heq, if_neg ?_]
    rw [hvalid_iff]
    rintro ⟨_, habs⟩
    omega
  · intro v
    have hdata : (c.set k 0 v).data ((c.set k 0 v)._key k) = some (0, v) := by
      cases k <;> simp [ExpiringLazyCache.set, ExpiringLazyCache._key]
    have hinv : (c.set k 0 v)._isValid 0 T = false := by
      rw [ExpiringLazyCache._isValid]
      simp
    constructor
    · rw [ExpiringLazyCache.has, hdata]
      exact hinv
    · rw [ExpiringLazyCache.get, hdata]
      show (if (c.set k 0 v)._isValid 0 T = true then v else JVal.null) = JVal.null
      rw [if_neg (by simp [hinv])]

theorem claim_C7_witness :
    ((⟨"##", 100, fun _ => none⟩ : LazyCacheMod.ExpiringLazyCache).has (.one "k") 0 = true ↔
      ∃ t v, (⟨"##", 100, fun _ => none⟩ : LazyCacheMod.ExpiringLazyCache).data "k" = some (t, v) ∧
        t ≠ 0 ∧ (0 : Int) ≤ t + 100) ∧
    ((5 : Int) ≠ 0 ∧
      ((⟨"##", 100, fun _ => none⟩ : LazyCacheMod.ExpiringLazyCache).set (.one "k") 5
        (.str "v")).get (.one "k") (5 + 100) = .str "v") ∧
    (((⟨"##", 100, fun _ => none⟩ : LazyCacheMod.ExpiringLazyCache).set (.one "k") 5
        (.str "v")).get (.one "k") (5 + 100 + 1) = .null) :=
  ⟨(claim_C7 ⟨"##", 100, fun _ => none⟩ (.one "k") 0).1,
   ⟨by omega, (claim_C7 ⟨"##", 100, fun _ => none⟩ (.one "k") 0).2.2.2.1 5 (.str "v") (by omega)⟩,
   (claim_C7 ⟨"##", 100, fun _ => none⟩ (.one "k") 0).2.2.2.2.1 5 (.str "v")⟩

open RedisWrapper in
/-- C8: for every key and every structurally serializable value v (any JVal,
including null), setObject k v followed by getObject k returns a value
structurally equal to v. -/
theorem claim_C8 (store : Store) (key : String) (v : JVal) :
    getObject (setObject store key v) key = .ok v := by
  have hget : get (setObject store key v) key = some (jsonStringify v) := by
    show (if key = key then some (jsonStringify v) else store key) = some (jsonStringify v)
    simp
  rw [getObject, hget]
  show (match jsonParse (jsonStringify v) with
    | some w => Except.ok w
    | none => Except.error (RedisError.jsonParseError (jsonStringify v))) = Except.ok v
  rw [jsonParse_stringify]

/-- C9 counterexample: a key stored with explicit null IS distinguishable
from a never-populated key through the public operations of the expiring
cache: after set "k" 5 null, has "k" at time 3 answers true, while on the
never-populated cache it answers false.  This refutes the claim that has and
get give the same answers for a null-valued key as for a never-set key. -/
theorem claim_C9_counterexample :
    (exampleExpiringCache.set (.one "k") 5 .null).has (.one "k") 3 = true ∧
    exampleExpiringCache.has (.one "k") 3 = false := by
  constructor <;> rfl

open LazyCacheMod in
/-- C9 (amended): a key whose stored value is an explicit null is
indistinguishable from a never-populated key through get (both give the
not-found value null at every timestamp), but has distinguishes them: it
reports true for the null-valued entry whenever its expiration time is
truthy and not yet expired. -/
theorem claim_C9_amended (c : ExpiringLazyCache) (k : KeyOrKeys) (t T : Int) :
    ((c.set k t .null).get k T = .null) ∧
    (c.data (c._key k) = none → c.get k T = .null ∧ c.has k T = false) ∧
    (t ≠ 0 → T ≤ t + c.expiringGap → (c.set k t .null).has k T = true) := by
  have hdata : (c.set k t .null).data ((c.set k t .null)._key k) = some (t, .null) := by
    cases k <;> simp [ExpiringLazyCache.set, ExpiringLazyCache._key]
  refine ⟨?_, ?_, ?_⟩
  · rw [ExpiringLazyCache.get, hdata]
    show (if (c.set k t .null)._isValid t T = true then JVal.null else JVal.null) = JVal.null
    split <;> rfl
  · intro hnone
    rw [ExpiringLazyCache.get, ExpiringLazyCache.has, hnone]
    exact ⟨rfl, rfl⟩
  · intro ht hT
    rw [ExpiringLazyCache.has, hdata]
    show (c.set k t .null)._isValid t T = true
    rw [ExpiringLazyCache._isValid]
    simp only [Bool.and_eq_true, decide_eq_true_eq, ne_eq, bne_iff_ne]
    exact ⟨by simpa using ht, by simpa using hT⟩

theorem claim_C9_amended_witness :
    ((exampleExpiringCache.set (.one "k") 5 .null).get (.one "k") 3 = .null) ∧
    (exampleExpiringCache.data "k" = none ∧
      exampleExpiringCache.get (.one "k") 3 = .null ∧
      exampleExpiringCache.has (.one "k") 3 = false) ∧
    ((5 : Int) ≠ 0 ∧ (3 : Int) ≤ 5 + exampleExpiringCache.expiringGap ∧
      (exampleExpiringCache.set (.one "k") 5 .null).has (.one "k") 3 = true) :=
  ⟨(claim_C9_amended exampleExpiringCache (.one "k") 5 3).1,
   ⟨rfl,
    (claim_C9_amended exampleExpiringCache (.one "k") 5 3).2.1 rfl⟩,
   ⟨by omega, by norm_num [exampleExpiringCache, LazyCacheMod.DEFAULT_EXPIRING_GAP],
    (claim_C9_amended exampleExpiringCache (.one "k") 5 3).2.2 (by omega)
      (by norm_num [exampleExpiringCache, LazyCacheMod.DEFAULT_EXPIRING_GAP])⟩⟩

open RedisWrapper in
/-- C10: for every channel whose handler list is non-empty, calling
removeMessageHandler with a handler that is not currently registered for
that channel removes the last handler of that channel's list (JavaScript
splice of one element at index -1 after findIndex misses); if the list had
exactly one element the channel entry is deleted and the channel
unsubscribed; the registry entry is never left unchanged. -/
theorem claim_C10 (s : SubscriberState) (channel : String) (handler : Handler)
    (l : List Handler)
    (hsub : s.hasSubscriberClient = true)
    (hl : s.messageHandlers channel = some l)
    (hne : l ≠ []) (hnotin : handler ∉ l) :
    ((removeMessageHandler s channel handler).messageHandlers channel =
      if l.dropLast.length = 0 then none else some l.dropLast) ∧
    (l.length = 1 →
      (removeMessageHandler s channel handler).messageHandlers channel = none ∧
      (removeMessageHandler s channel handler).subscribed channel = false) ∧
    (removeMessageHandler s channel handler).messageHandlers channel ≠ some l := by
  have hguard : (!s.hasSubscriberClient || !(_hasMessageHandlers s channel)) = false := by
    simp [hsub, _hasMessageHandlers, hl]
  have hidx : l.findIdx? (fun x => x = handler) = none := by
    rw [List.findIdx?_eq_none_iff]
    intro x hx
    simp only [decide_eq_false_iff_not]
    rintro rfl
    exact hnotin hx
  have hlength : l.dropLast.length = l.length - 1 := by simp
  have hlpos : 1 ≤ l.length := by
    cases l with
    | nil => exact absurd rfl hne
    | cons a as => simp
  rw [removeMessageHandler, hguard]
  simp only [Bool.false_eq_true, if_false, hl, Option.getD_some, hidx, spliceRemoveOne]
  by_cases hlen : l.dropLast.length = 0
  · rw [if_pos hlen, if_pos hlen]
    refine ⟨by simp, fun _ => ⟨by simp, by simp⟩, by simp⟩
  · rw [if_neg hlen, if_neg hlen]
    refine ⟨by simp, fun hone => absurd (by omega : l.dropLast.length = 0) hlen, ?_⟩
    simp only [ne_eq, if_pos rfl]
    intro hcontr
    have := Option.some.inj hcontr
    have : l.dropLast.length = l.length := by rw [this]
    omega

theorem claim_C10_witness :
    ((⟨true, fun ch => if ch = "c" then some [1, 2] else none, fun ch => ch = "c"⟩ :
        RedisWrapper.SubscriberState).hasSubscriberClient = true ∧
      (3 : RedisWrapper.Handler) ∉ [1, 2]) ∧
    ((RedisWrapper.removeMessageHandler
        ⟨true, fun ch => if ch = "c" then some [1, 2] else none, fun ch => ch = "c"⟩
        "c" 3).messageHandlers "c" = some [1]) :=
  ⟨⟨rfl, by decide⟩, by
    have h := claim_C10
      ⟨true, fun ch => if ch = "c" then some [1, 2] else none, fun ch => ch = "c"⟩
      "c" 3 [1, 2] rfl (by simp) (by simp) (by decide)
    rw [h.1]
    decide⟩

